import Mathlib

/-!
kaniko: composite cache keys and the WORKDIR command.

A shallow embedding of `pkg/executor/composite_cache.go` and
`pkg/commands/workdir.go`.

* Go strings are modelled by `GoString`.
* A Go slice is a header (backing array, length, capacity) into a heap of
  backing arrays, so that two headers can share storage exactly as they do in
  Go; `append` follows the language rule: in place while the capacity
  suffices, a fresh array otherwise.
* Functions with a pointer receiver take the state they mutate and return
  the new state.
* Collaborators that live outside the two source files (the content hasher,
  SHA-256, environment substitution, the operating system) are parameters.
-/

namespace Kaniko

/-! ## Basic types -/

/-- A Go `string`. -/
abbrev GoString := String

/-- A non-nil Go `error`: its message, and whether `os.IsNotExist` holds of it. -/
structure GoError where
  msg : GoString
  notExist : Bool
deriving DecidableEq, Repr

/-- The function `os.IsNotExist`, which is false on a nil error. -/
def osIsNotExist : Option GoError → Bool
  | none => false
  | some e => e.notExist

/-! ## Go slices of strings -/

/-- The heap of backing arrays; a backing array is addressed by its index. -/
abbrev Heap := List (List GoString)

/-- A slice header. Every slice of the program starts at the beginning of
its backing array, so no offset is kept. The nil slice has `len = cap = 0`. -/
structure Slice where
  arr : Nat
  len : Nat
  cap : Nat
deriving DecidableEq, Repr

/-- The nil slice. -/
def Slice.nilSlice : Slice := { arr := 0, len := 0, cap := 0 }

/-- The backing array of a slice. -/
def Slice.backing (h : Heap) (s : Slice) : List GoString := h.getD s.arr []

/-- The elements a slice denotes: the first `len` cells of its backing array. -/
def Slice.elems (h : Heap) (s : Slice) : List GoString := (s.backing h).take s.len

/-- The header is consistent with the heap: `len ≤ cap` and the backing
array has at least `cap` cells. -/
def Slice.WF (h : Heap) (s : Slice) : Prop :=
  s.len ≤ s.cap ∧ s.cap ≤ (s.backing h).length

instance (h : Heap) (s : Slice) : Decidable (s.WF h) := by
  unfold Slice.WF; infer_instance

/-- Overwrite the cells of `a` from position `i` on with `ks`. -/
def writeAt (a : List GoString) (i : Nat) (ks : List GoString) : List GoString :=
  a.take i ++ ks ++ a.drop (i + ks.length)

/-- The slice literal / implicit variadic slice: a fresh backing array that
holds exactly the given elements (the nil slice when there are none). -/
def mkSlice (h : Heap) (elems : List GoString) : Heap × Slice :=
  match elems with
  | [] => (h, Slice.nilSlice)
  | _ :: _ => (h ++ [elems], { arr := h.length, len := elems.length, cap := elems.length })

/-- The growth loop of the Go runtime for large slices:
`for newcap < newLen { newcap += (newcap + 3*256) / 4 }`. -/
def growLoop : Nat → Nat → Nat → Nat
  | 0, newcap, _ => newcap
  | fuel + 1, newcap, newLen =>
    if newcap < newLen then growLoop fuel (newcap + (newcap + 3 * 256) / 4) newLen else newcap

/-- The capacity the Go runtime picks when `append` has to reallocate
(`nextslicecap` of `runtime/slice.go`): the required length when that exceeds
twice the old capacity, twice the old capacity below 256 elements, and growth
by about a quarter beyond. The rounding up to an allocator size class, which
can only enlarge the result, is left out: the value is the capacity of the
runtime for the small capacities 1, 2 and 4 and a lower bound of it in
general. Nothing but the evaluation of concrete runs uses this policy; the
general statements hold for every policy. -/
def goGrowCap (oldCap newLen : Nat) : Nat :=
  let doublecap := oldCap + oldCap
  if newLen > doublecap then newLen
  else if oldCap < 256 then doublecap
  else growLoop newLen oldCap newLen

/-- The built-in `append(s, ks...)`. When the capacity suffices the elements
are written into the backing array of `s` behind its length; otherwise a new
array is allocated, of the capacity `grow` asks for (and at least the needed
length), the old elements are copied and the new ones follow. -/
def goAppend (grow : Nat → Nat → Nat) (h : Heap) (s : Slice) (ks : List GoString) :
    Heap × Slice :=
  let newLen := s.len + ks.length
  if newLen ≤ s.cap then
    (h.set s.arr (writeAt (s.backing h) s.len ks), { s with len := newLen })
  else
    let newCap := max (grow s.cap newLen) newLen
    (h ++ [s.elems h ++ ks ++ List.replicate (newCap - newLen) ""],
      { arr := h.length, len := newLen, cap := newCap })

/-! ## The standard library: `strings.Join` -/

/-- The function `strings.Join`: the elements with `sep` between neighbours. -/
def stringsJoin (elems : List GoString) (sep : GoString) : GoString :=
  match elems with
  | [] => ""
  | e :: rest => rest.foldl (fun b s => b ++ sep ++ s) e

/-! ## `composite_cache.go`: keys -/

/-- The struct `CompositeCache`: a slice of keys. -/
structure CompositeCache where
  keys : Slice
deriving DecidableEq, Repr

/-- The token sequence of a cache. -/
def CompositeCache.tokens (h : Heap) (s : CompositeCache) : List GoString := s.keys.elems h

/-- The constructor `NewCompositeCache(initial ...string)`: the slice passed for `initial`
becomes the key slice as it is. -/
def NewCompositeCache (initial : Slice) : CompositeCache := { keys := initial }

/-- The method `s.AddKey(k...)`: `s.keys = append(s.keys, k...)`. -/
def CompositeCache.AddKey (grow : Nat → Nat → Nat) (h : Heap) (s : CompositeCache)
    (k : List GoString) : Heap × CompositeCache :=
  let r := goAppend grow h s.keys k
  (r.1, { keys := r.2 })

/-- The method `s.Key()`: `strings.Join(s.keys, "-")`. -/
def CompositeCache.Key (h : Heap) (s : CompositeCache) : GoString :=
  stringsJoin (s.keys.elems h) "-"

/-- The method `s.Hash()`: `util.SHA256` of a reader over `s.Key()`; `utilSHA256` is
the digest function of package `util`. -/
def CompositeCache.Hash (utilSHA256 : GoString → Except GoError GoString) (h : Heap)
    (s : CompositeCache) : Except GoError GoString :=
  utilSHA256 (s.Key h)

/-- The method `s.Copy()`: `NewCompositeCache(s.keys...)`. A slice followed by `...` is
passed unchanged as the variadic parameter; no new slice is created. -/
def CompositeCache.Copy (s : CompositeCache) : CompositeCache := NewCompositeCache s.keys

/-! ## The standard library: `path/filepath` on Unix -/

/-- The function `os.IsPathSeparator` on Unix. -/
def isPathSeparator (c : Char) : Bool := c == '/'

/-- The function `filepath.IsAbs` on Unix: `strings.HasPrefix(path, "/")`. -/
def filepathIsAbs (path : GoString) : Bool :=
  match path.data with
  | c :: _ => c == '/'
  | [] => false

/-- The write buffer `lazybuf` of `filepath.Clean`: the bytes written so far
are the first `w` cells of `buf`. -/
structure LazyBuf where
  buf : List Char
  w : Nat

/-- The method `b.index(i)`. -/
def LazyBuf.index (b : LazyBuf) (i : Nat) : Char := b.buf.getD i '/'

/-- The method `b.append(c)`. -/
def LazyBuf.append (b : LazyBuf) (c : Char) : LazyBuf :=
  { buf := b.buf.take b.w ++ [c], w := b.w + 1 }

/-- The method `b.string()`. -/
def LazyBuf.string (b : LazyBuf) : List Char := b.buf.take b.w

/-- The inner loop of the `..` case of `Clean`:
`for out.w > dotdot && !os.IsPathSeparator(out.index(out.w)) { out.w-- }`. -/
def cleanBacktrack (dotdot : Nat) : Nat → LazyBuf → LazyBuf
  | 0, out => out
  | fuel + 1, out =>
    if out.w > dotdot && !isPathSeparator (out.index out.w) then
      cleanBacktrack dotdot fuel { out with w := out.w - 1 }
    else out

/-- The inner loop of the default case of `Clean`:
`for ; r < n && !os.IsPathSeparator(path[r]); r++ { out.append(path[r]) }`. -/
def cleanCopy (path : List Char) (n : Nat) : Nat → Nat → LazyBuf → Nat × LazyBuf
  | 0, r, out => (r, out)
  | fuel + 1, r, out =>
    if r < n && !isPathSeparator (path.getD r '/') then
      cleanCopy path n fuel (r + 1) (out.append (path.getD r '/'))
    else (r, out)

/-- The main loop `for r < n { switch ... }` of `Clean`. Every round advances
`r`, so `n` rounds of fuel are enough. -/
def cleanLoop (path : List Char) (n : Nat) (rooted : Bool) :
    Nat → Nat → LazyBuf → Nat → LazyBuf
  | 0, _, out, _ => out
  | fuel + 1, r, out, dotdot =>
    if r < n then
      if isPathSeparator (path.getD r '/') then
        cleanLoop path n rooted fuel (r + 1) out dotdot
      else if path.getD r '/' == '.' && (r + 1 == n || isPathSeparator (path.getD (r + 1) '/')) then
        cleanLoop path n rooted fuel (r + 1) out dotdot
      else if path.getD r '/' == '.' && path.getD (r + 1) '/' == '.' &&
          (r + 2 == n || isPathSeparator (path.getD (r + 2) '/')) then
        if out.w > dotdot then
          cleanLoop path n rooted fuel (r + 2)
            (cleanBacktrack dotdot out.w { out with w := out.w - 1 }) dotdot
        else if !rooted then
          let out1 := if out.w > 0 then out.append '/' else out
          let out2 := (out1.append '.').append '.'
          cleanLoop path n rooted fuel (r + 2) out2 out2.w
        else
          cleanLoop path n rooted fuel (r + 2) out dotdot
      else
        let out1 :=
          if (rooted && out.w != 1) || (!rooted && out.w != 0) then out.append '/' else out
        let rc := cleanCopy path n n r out1
        cleanLoop path n rooted fuel rc.1 rc.2 dotdot
    else out

/-- The function `filepath.Clean` on Unix (no volume name). -/
def filepathClean (path : GoString) : GoString :=
  if path = "" then "."
  else
    let p := path.data
    let n := p.length
    let rooted := isPathSeparator (p.getD 0 '.')
    let out0 : LazyBuf := { buf := [], w := 0 }
    let out1 := if rooted then out0.append '/' else out0
    let start := if rooted then 1 else 0
    let out := cleanLoop p n rooted n start out1 start
    let out := if out.w == 0 then out.append '.' else out
    String.mk out.string

/-- The function `filepath.Join` on Unix: the elements from the first non-empty
one on, joined by `/` and cleaned; the empty string when all are empty. -/
def filepathJoin : List GoString → GoString
  | [] => ""
  | e :: rest => if e ≠ "" then filepathClean (stringsJoin (e :: rest) "/") else filepathJoin rest

/-! ## Configuration and collaborators of `workdir.go` -/

/-- The image configuration `v1.Config`: the fields the command reads or
writes (`Env`, `WorkingDir`) together with the other string and list fields. -/
structure Config where
  User : GoString
  Env : List GoString
  Entrypoint : List GoString
  Cmd : List GoString
  WorkingDir : GoString
  Labels : List (GoString × GoString)
  StopSignal : GoString
  Shell : List GoString
deriving DecidableEq, Repr

/-- The type `dockerfile.BuildArgs`, seen only through `ReplacementEnvs`. -/
abbrev BuildArgs := List GoString

/-- The collaborators of `updateWorkdir` declared in other packages. -/
structure Subst where
  /-- The method `buildArgs.ReplacementEnvs(env)`. -/
  ReplacementEnvs : BuildArgs → List GoString → List GoString
  /-- The method `util.ResolveEnvironmentReplacement(value, envs, isFilepath)`. -/
  ResolveEnvironmentReplacement : GoString → List GoString → Bool → Except GoError GoString

/-- A call the command makes to the file system. -/
inductive FsCall where
  | stat (name : GoString)
  | mkdirAll (path : GoString) (perm : Nat)
deriving DecidableEq, Repr

/-- The file system as the command reaches it: `os.Stat` (its error result)
and the package variable `mkdir`, bound to `os.MkdirAll`. -/
structure FileOps (σ : Type) where
  Stat : σ → GoString → Option GoError
  mkdir : σ → GoString → Nat → σ × Option GoError

/-- The file-system state together with the log of calls made so far. -/
structure World (σ : Type) where
  fs : σ
  calls : List FsCall

/-- A call of `os.Stat`. -/
def World.stat {σ : Type} (ops : FileOps σ) (wd : World σ) (name : GoString) :
    World σ × Option GoError :=
  ({ wd with calls := wd.calls ++ [FsCall.stat name] }, ops.Stat wd.fs name)

/-- A call of `mkdir`. -/
def World.mkdir {σ : Type} (ops : FileOps σ) (wd : World σ) (path : GoString) (perm : Nat) :
    World σ × Option GoError :=
  let r := ops.mkdir wd.fs path perm
  ({ fs := r.1, calls := wd.calls ++ [FsCall.mkdirAll path perm] }, r.2)

/-! ## `workdir.go` -/

/-- The parsed instruction `instructions.WorkdirCommand`: the source line and
the command name it keeps from parsing, and the path. -/
structure InstructionsWorkdirCommand where
  code : GoString
  name : GoString
  Path : GoString
deriving DecidableEq, Repr

/-- Its `String()`: the source line as it was written. -/
def InstructionsWorkdirCommand.String (c : InstructionsWorkdirCommand) : GoString :=
  c.code

/-- The embedded struct `BaseCommand`, declared elsewhere in the package;
no field of it is read here. -/
structure BaseCommand where
deriving DecidableEq, Repr

/-- The struct `WorkdirCommand`. -/
structure WorkdirCommand where
  BaseCommand : BaseCommand
  cmd : InstructionsWorkdirCommand
  snapshotFiles : List GoString
deriving DecidableEq, Repr

/-- The struct `CachedWorkdirCommand`. -/
structure CachedWorkdirCommand where
  BaseCommand : BaseCommand
  cmd : InstructionsWorkdirCommand
deriving DecidableEq, Repr

/-- The function `updateWorkdir`: the new configuration and the error result. -/
def updateWorkdir (ext : Subst) (workdirPath : GoString) (config : Config)
    (buildArgs : BuildArgs) : Config × Option GoError :=
  let replacementEnvs := ext.ReplacementEnvs buildArgs config.Env
  match ext.ResolveEnvironmentReplacement workdirPath replacementEnvs true with
  | .error err => (config, some err)
  | .ok resolvedWorkingDir =>
    if filepathIsAbs resolvedWorkingDir then
      ({ config with WorkingDir := resolvedWorkingDir }, none)
    else
      ({ config with WorkingDir := filepathJoin [config.WorkingDir, resolvedWorkingDir] }, none)

/-- The result of an `ExecuteCommand`: the receiver, the configuration and
the world afterwards, and the returned error. -/
structure ExecResult (ρ σ : Type) where
  recv : ρ
  config : Config
  world : World σ
  err : Option GoError

/-- The method `(w *WorkdirCommand) ExecuteCommand(config, buildArgs)`. -/
def WorkdirCommand.ExecuteCommand {σ : Type} (ext : Subst) (ops : FileOps σ)
    (w : WorkdirCommand) (config : Config) (buildArgs : BuildArgs) (world : World σ) :
    ExecResult WorkdirCommand σ :=
  let workdirPath := w.cmd.Path
  match updateWorkdir ext workdirPath config buildArgs with
  | (config1, some err) => { recv := w, config := config1, world := world, err := some err }
  | (config1, none) =>
    let w1 := { w with snapshotFiles := [] }
    let st := world.stat ops config1.WorkingDir
    if osIsNotExist st.2 then
      let w2 := { w1 with snapshotFiles := w1.snapshotFiles ++ [config1.WorkingDir] }
      let mk := st.1.mkdir ops config1.WorkingDir 0o755
      { recv := w2, config := config1, world := mk.1, err := mk.2 }
    else
      { recv := w1, config := config1, world := st.1, err := none }

/-- The method `(w *WorkdirCommand) FilesToSnapshot()`. -/
def WorkdirCommand.FilesToSnapshot (w : WorkdirCommand) : List GoString := w.snapshotFiles

/-- The method `(w *WorkdirCommand) String()`. -/
def WorkdirCommand.String (w : WorkdirCommand) : GoString := w.cmd.String

/-- The method `(w *WorkdirCommand) MetadataOnly()`. -/
def WorkdirCommand.MetadataOnly (_w : WorkdirCommand) : Bool := false

/-- The method `(r *WorkdirCommand) RequiresUnpackedFS()`. -/
def WorkdirCommand.RequiresUnpackedFS (_r : WorkdirCommand) : Bool := true

/-- The method `(r *WorkdirCommand) ShouldCacheOutput()`. -/
def WorkdirCommand.ShouldCacheOutput (_r : WorkdirCommand) : Bool := true

/-- The method `(r *CachedWorkdirCommand) CacheCommand()`: the only `CacheCommand` the
file declares; its receiver is the cached command. -/
def CachedWorkdirCommand.CacheCommand (r : CachedWorkdirCommand) : CachedWorkdirCommand :=
  { BaseCommand := {}, cmd := r.cmd }

/-- The call `CacheCommand()` on a `*WorkdirCommand`: the file declares none for this
receiver, so the call is the method promoted from the embedded `BaseCommand`,
here `baseCacheCommand`, which sees the `BaseCommand` part only. -/
def WorkdirCommand.CacheCommand {δ : Type} (baseCacheCommand : Kaniko.BaseCommand → δ)
    (w : WorkdirCommand) : δ :=
  baseCacheCommand w.BaseCommand

/-- The method `(cw *CachedWorkdirCommand) ExecuteCommand(config, buildArgs)`. -/
def CachedWorkdirCommand.ExecuteCommand {σ : Type} (ext : Subst)
    (cw : CachedWorkdirCommand) (config : Config) (buildArgs : BuildArgs) (world : World σ) :
    ExecResult CachedWorkdirCommand σ :=
  let r := updateWorkdir ext cw.cmd.Path config buildArgs
  { recv := cw, config := r.1, world := world, err := r.2 }

/-- The method `(cw *CachedWorkdirCommand) MetadataOnly()`. -/
def CachedWorkdirCommand.MetadataOnly (_cw : CachedWorkdirCommand) : Bool := true

/-- The method `(cw *CachedWorkdirCommand) String()`. -/
def CachedWorkdirCommand.String (cw : CachedWorkdirCommand) : GoString := cw.cmd.String

/-! ## The file tree seen by `os.Lstat` and `filepath.Walk` -/

/-- The result of a successful `Lstat`, reduced to `Mode().IsDir()`. -/
structure FileInfo where
  IsDir : Bool
deriving DecidableEq, Repr

mutual
/-- What lies at a path: an entry whose `Lstat` fails, a non-directory
(regular file, symbolic link, ...), or a directory with the result of
reading its names. -/
inductive Node where
  | lstatErr (e : GoError)
  | file
  | dir (readErr : Option GoError) (ents : Entries)
/-- The entries of a directory in the order `readDirNames` returns them,
which is sorted by name. -/
inductive Entries where
  | nil
  | cons (name : GoString) (n : Node) (rest : Entries)
end

/-- The file system for reading: what lies at each path. -/
abbrev FileTree := GoString → Node

/-- The function `os.Lstat`. -/
def osLstat (fs : FileTree) (p : GoString) : Except GoError FileInfo :=
  match fs p with
  | .lstatErr e => .error e
  | .file => .ok { IsDir := false }
  | .dir _ _ => .ok { IsDir := true }

/-- Whether a node is a directory. -/
def Node.isDir : Node → Bool
  | .dir _ _ => true
  | _ => false

/-- The error result of a `filepath.WalkFunc`: the sentinel
`filepath.SkipDir` or any other error. -/
inductive WalkErr where
  | skipDir
  | fail (e : GoError)
deriving DecidableEq, Repr

/-- A `filepath.WalkFunc` that threads the state it closes over. -/
abbrev WalkFunc (σ : Type) := σ → GoString → Option FileInfo → Option GoError → σ × Option WalkErr

mutual
/-- One entry of the walk. When its `Lstat` failed, `walkFn(path, nil, err)`.
Otherwise the function `walk` of `path/filepath`: a non-directory is passed
to `walkFn`; a directory is passed to `walkFn` together with the error of
reading its names, and when both are nil its entries follow. -/
def walk {σ : Type} (walkFn : WalkFunc σ) (path : GoString) : Node → σ → σ × Option WalkErr
  | .lstatErr e, st => walkFn st path none (some e)
  | .file, st => walkFn st path (some { IsDir := false }) none
  | .dir readErr ents, st =>
    let r := walkFn st path (some { IsDir := true }) readErr
    if readErr.isSome || r.2.isSome then r else walkNames walkFn path ents r.1
/-- The loop `for _, name := range names` of `walk`. -/
def walkNames {σ : Type} (walkFn : WalkFunc σ) (path : GoString) :
    Entries → σ → σ × Option WalkErr
  | .nil, st => (st, none)
  | .cons name n rest, st =>
    let filename := filepathJoin [path, name]
    let r := walk walkFn filename n st
    match r.2 with
    | none => walkNames walkFn path rest r.1
    | some err =>
      match n with
      | .lstatErr _ =>
        if err ≠ WalkErr.skipDir then (r.1, some err) else walkNames walkFn path rest r.1
      | _ =>
        if !n.isDir || err ≠ WalkErr.skipDir then (r.1, some err)
        else walkNames walkFn path rest r.1
end

/-- The function `filepath.Walk`: the walk from the root, with a final
`SkipDir` turned into nil. -/
def filepathWalk {σ : Type} (fs : FileTree) (root : GoString) (walkFn : WalkFunc σ) (st : σ) :
    σ × Option GoError :=
  let r := walk walkFn root (fs root) st
  match r.2 with
  | some (.fail e) => (r.1, some e)
  | _ => (r.1, none)

/-! ## `composite_cache.go`: paths and commands -/

/-- The collaborators of the cache declared in other packages, and the
growth policy of the runtime. -/
structure Deps where
  /-- The capacity `append` allocates: old capacity and needed length. -/
  grow : Nat → Nat → Nat
  /-- The method `string(sha.Sum(nil))` of a SHA-256 hash that was fed the given bytes. -/
  sha256Sum : GoString → GoString
  /-- The method `util.CacheHasher()(path)`. -/
  CacheHasher : GoString → Except GoError GoString

/-- The callback `HashDir` passes to `filepath.Walk`. Its state is the bytes
written to `sha` so far; `sha.Write` of a hash never returns an error. -/
def hashDirFn (ext : Deps) : WalkFunc GoString := fun sha path _fi err =>
  match err with
  | some e => (sha, some (WalkErr.fail e))
  | none =>
    match ext.CacheHasher path with
    | .error e => (sha, some (WalkErr.fail e))
    | .ok fileHash => (sha ++ fileHash, none)

/-- The function `HashDir`: the digest and the error result. -/
def HashDir (ext : Deps) (fs : FileTree) (p : GoString) : GoString × Option GoError :=
  let sha : GoString := ""
  let r := filepathWalk fs p (hashDirFn ext) sha
  match r.2 with
  | some err => ("", some err)
  | none => (ext.sha256Sum r.1, none)

/-- The result of a cache method that can fail: heap and cache afterwards,
and the returned error. -/
structure CacheResult where
  heap : Heap
  cache : CompositeCache
  err : Option GoError

/-- The method `s.AddPath(p)`. -/
def CompositeCache.AddPath (ext : Deps) (fs : FileTree) (h : Heap) (s : CompositeCache)
    (p : GoString) : CacheResult :=
  let sha : GoString := ""
  match osLstat fs p with
  | .error err => { heap := h, cache := s, err := some err }
  | .ok fi =>
    if fi.IsDir then
      match HashDir ext fs p with
      | (_, some err) => { heap := h, cache := s, err := some err }
      | (k, none) =>
        let r := goAppend ext.grow h s.keys [k]
        { heap := r.1, cache := { keys := r.2 }, err := none }
    else
      match ext.CacheHasher p with
      | .error err => { heap := h, cache := s, err := some err }
      | .ok fh =>
        let sha1 := sha ++ fh
        let r := goAppend ext.grow h s.keys [ext.sha256Sum sha1]
        { heap := r.1, cache := { keys := r.2 }, err := none }

/-- The interface `commands.DockerCommand`, reduced to the two methods
`AddCommand` calls. -/
structure DockerCommand where
  String : GoString
  FilesUsedFromContext : Config → BuildArgs → Except GoError (List GoString)

/-- The loop `for _, f := range files` of `AddCommand`. -/
def addPaths (ext : Deps) (fs : FileTree) (h : Heap) (s : CompositeCache) :
    List GoString → CacheResult
  | [] => { heap := h, cache := s, err := none }
  | f :: rest =>
    let r := s.AddPath ext fs h f
    match r.err with
    | some err => { heap := r.heap, cache := r.cache, err := some err }
    | none => addPaths ext fs r.heap r.cache rest

/-- The method `s.AddCommand(command, args, config)`. -/
def CompositeCache.AddCommand (ext : Deps) (fs : FileTree) (h : Heap) (s : CompositeCache)
    (command : DockerCommand) (args : BuildArgs) (config : Config) : CacheResult :=
  let r := s.AddKey ext.grow h [command.String]
  match command.FilesUsedFromContext config args with
  | .error err => { heap := r.1, cache := r.2, err := some err }
  | .ok files => addPaths ext fs r.1 r.2 files


/-! ## Specification-side notions for the cache -/

mutual
/-- The calls `filepath.Walk` makes to its function, in order, as long as the
function returns nil: the path of each entry together with the error of its
`Lstat` or of reading its names. Top-down: a directory comes before its
entries, the entries in the order `readDirNames` lists them. -/
def walkEvents (path : GoString) : Node → List (GoString × Option GoError)
  | .lstatErr e => [(path, some e)]
  | .file => [(path, none)]
  | .dir (some e) _ => [(path, some e)]
  | .dir none ents => (path, none) :: walkEventsNames path ents
/-- The calls for the entries of a directory. -/
def walkEventsNames (path : GoString) : Entries → List (GoString × Option GoError)
  | .nil => []
  | .cons name n rest => walkEvents (filepathJoin [path, name]) n ++ walkEventsNames path rest
end

/-- The callback of `HashDir` run over a list of calls, stopping at the first
error it returns. -/
def hashEvents (ext : Deps) : GoString → List (GoString × Option GoError) →
    GoString × Option WalkErr
  | sha, [] => (sha, none)
  | sha, ev :: rest =>
    match hashDirFn ext sha ev.1 none ev.2 with
    | (sha1, none) => hashEvents ext sha1 rest
    | (sha1, some e) => (sha1, some e)

/-- A call on which `HashDir` fails with `e`: the walk reports `e` for the
entry, or the walk reports no error and the content hasher fails with `e`. -/
def failsWith (ext : Deps) (ev : GoString × Option GoError) (e : GoError) : Prop :=
  ev.2 = some e ∨ (ev.2 = none ∧ ext.CacheHasher ev.1 = .error e)

/-- The token `AddPath` computes for a path, or the error it returns. -/
def pathToken (ext : Deps) (fs : FileTree) (p : GoString) : Except GoError GoString :=
  match osLstat fs p with
  | .error err => .error err
  | .ok fi =>
    if fi.IsDir then
      match HashDir ext fs p with
      | (_, some err) => .error err
      | (k, none) => .ok k
    else
      match ext.CacheHasher p with
      | .error err => .error err
      | .ok fh => .ok (ext.sha256Sum fh)

/-- The characters `strings.Join(_, "-")` writes after the first element:
a separator before every further element. -/
def joinTail : List GoString → List Char
  | [] => []
  | s :: rest => '-' :: (s.data ++ joinTail rest)

/-- A token is free of the separator of `Key()`. -/
def dashFree (k : GoString) : Prop := '-' ∉ k.data

instance (k : GoString) : Decidable (dashFree k) := by
  unfold dashFree; infer_instance

/-! ## A source cache and its copy under later `AddKey` calls -/

/-- The cache `NewCompositeCache(initial...)` called with explicit
arguments, followed by one `AddKey` call per element of `adds`. -/
def buildCache (grow : Nat → Nat → Nat) (initial : List GoString)
    (adds : List (List GoString)) : Heap × CompositeCache :=
  adds.foldl (fun st k => st.2.AddKey grow st.1 k)
    ((mkSlice [] initial).1, NewCompositeCache (mkSlice [] initial).2)

/-- A later `AddKey` call, on the source cache or on its copy. -/
inductive KeyOp where
  | onSource (k : List GoString)
  | onCopy (k : List GoString)
deriving DecidableEq, Repr

/-- Whether the call is on the source. -/
def KeyOp.isSource : KeyOp → Bool
  | .onSource _ => true
  | .onCopy _ => false

/-- The heap with a source cache `s` and a cache `c`. -/
structure Forked where
  heap : Heap
  s : CompositeCache
  c : CompositeCache
deriving DecidableEq, Repr

/-- The state right after `c := s.Copy()`. -/
def fork (hs : Heap × CompositeCache) : Forked :=
  { heap := hs.1, s := hs.2, c := hs.2.Copy }

/-- The calls of a list made in order. -/
def runOps (grow : Nat → Nat → Nat) : Forked → List KeyOp → Forked
  | st, [] => st
  | st, .onSource k :: rest =>
    runOps grow { st with heap := (st.s.AddKey grow st.heap k).1,
                          s := (st.s.AddKey grow st.heap k).2 } rest
  | st, .onCopy k :: rest =>
    runOps grow { st with heap := (st.c.AddKey grow st.heap k).1,
                          c := (st.c.AddKey grow st.heap k).2 } rest

/-- The value of `s.Key()` after the calls. -/
def sourceKeyAfter (grow : Nat → Nat → Nat) (st : Forked) (ops : List KeyOp) : GoString :=
  (runOps grow st ops).s.Key (runOps grow st ops).heap

/-! ## Concrete collaborators for the examples -/

/-- A substitution that knows no variables: every path resolves to itself. -/
def plainSubst : Subst :=
  { ReplacementEnvs := fun args env => env ++ args
    ResolveEnvironmentReplacement := fun value _ _ => .ok value }

/-- A file system given by the list of its directories. `Stat` fails with a
not-exist error off the list; `mkdir` adds the path. -/
def listOps : FileOps (List GoString) :=
  { Stat := fun fs p =>
      if p ∈ fs then none else some { msg := "no such file or directory", notExist := true }
    mkdir := fun fs p _ => (p :: fs, none) }

/-- The same file system mounted read-only: `mkdir` fails. -/
def readOnlyOps : FileOps (List GoString) :=
  { Stat := listOps.Stat
    mkdir := fun fs _ _ => (fs, some { msg := "read-only file system", notExist := false }) }

/-- The full command of `WORKDIR sub`, holding a snapshot list from an
earlier execution. -/
def fullSub : WorkdirCommand :=
  { BaseCommand := {}, cmd := { code := "WORKDIR sub", name := "workdir", Path := "sub" }, snapshotFiles := ["/old"] }

/-- The cached command of `WORKDIR sub`. -/
def cachedSub : CachedWorkdirCommand :=
  { BaseCommand := {}, cmd := { code := "WORKDIR sub", name := "workdir", Path := "sub" } }

/-- The world whose only directories are `/` and `/base`, with no call made. -/
def freshWorld : World (List GoString) := { fs := ["/", "/base"], calls := [] }

/-- A command that copies `/ctx` and `/f` from the build context. -/
def copyCommand : DockerCommand :=
  { String := "COPY ctx f /app", FilesUsedFromContext := fun _ _ => .ok ["/ctx", "/f"] }

/-- A disk: the paths of its directories and of its regular files. -/
structure Disk where
  dirs : List GoString
  files : List GoString
deriving DecidableEq, Repr

/-- Whether the path `p` leads through `f`: it continues `f` with a separator. -/
def leadsThrough (f p : GoString) : Bool :=
  p.data.take (f.data.length + 1) == f.data ++ ['/']

/-- The proper ancestors of a path below the root: the text before each
separator that is not the first character. -/
def pathAncestors (p : GoString) : List GoString :=
  ((List.range p.data.length).filter (fun i => 0 < i && p.data.getD i ' ' == '/')).map
    (fun i => String.mk (p.data.take i))

/-- The calls `os.Stat` and `os.MkdirAll` on a disk. A path that leads
through a regular file is refused with "not a directory", which is not a
not-exist error; a path that is neither on the disk nor leads through a file
fails `Stat` with a not-exist error, and `MkdirAll` creates it together with
its missing ancestors. -/
def diskOps : FileOps Disk :=
  { Stat := fun d p =>
      if p ∈ d.dirs ∨ p ∈ d.files then none
      else if d.files.any (fun f => leadsThrough f p) then
        some { msg := "not a directory", notExist := false }
      else some { msg := "no such file or directory", notExist := true }
    mkdir := fun d p _ =>
      if p ∈ d.dirs then (d, none)
      else if p ∈ d.files ∨ d.files.any (fun f => leadsThrough f p) then
        (d, some { msg := "not a directory", notExist := false })
      else ({ d with dirs := (p :: pathAncestors p).filter (fun q => q ∉ d.dirs) ++ d.dirs },
        none) }

/-- The world with the directory `/`, the regular file `/file`, and no call
made. -/
def fileWorld : World Disk := { fs := { dirs := ["/"], files := ["/file"] }, calls := [] }

/-- The full command of `WORKDIR /file/sub`. -/
def fullFileSub : WorkdirCommand :=
  { BaseCommand := {}
    cmd := { code := "WORKDIR /file/sub", name := "workdir", Path := "/file/sub" }
    snapshotFiles := [] }

/-- The full command of `WORKDIR /new/sub`. -/
def fullNewSub : WorkdirCommand :=
  { BaseCommand := {}
    cmd := { code := "WORKDIR /new/sub", name := "workdir", Path := "/new/sub" }
    snapshotFiles := [] }

/-- A configuration with working directory `/base`. -/
def baseConfig : Config :=
  { User := "", Env := ["PATH=/bin"], Entrypoint := [], Cmd := ["sh"], WorkingDir := "/base",
    Labels := [], StopSignal := "", Shell := [] }

/-- A build context: the directory `/ctx` with a file, a sub-directory
holding one file, and another file; the file `/f`; nothing elsewhere. -/
def ctxTree : FileTree := fun p =>
  if p = "/ctx" then
    .dir none (.cons "a" .file (.cons "d" (.dir none (.cons "x" .file .nil))
      (.cons "z" .file .nil)))
  else if p = "/f" then .file
  else if p = "/locked" then .dir (some { msg := "permission denied", notExist := false }) .nil
  else .lstatErr { msg := "no such file or directory", notExist := true }

/-- Collaborators whose hashes show what was hashed: the fingerprint of a
path is the path in angle brackets, except that `/secret` cannot be read. -/
def showDeps : Deps :=
  { grow := goGrowCap
    sha256Sum := fun b => "sha256(" ++ b ++ ")"
    CacheHasher := fun p =>
      if p = "/secret" then .error { msg := "permission denied", notExist := false }
      else .ok ("<" ++ p ++ ">") }

/-! ## Slices: what `append` does to the elements -/

theorem backing_set_self (h : Heap) (s : Slice) (a : List GoString) (hlt : s.arr < h.length) :
    Slice.backing (h.set s.arr a) s = a := by
  simp [Slice.backing, List.getD_eq_getElem?_getD, List.getElem?_set, hlt]

theorem backing_of_not_lt (h : Heap) (s : Slice) (hge : ¬ s.arr < h.length) :
    s.backing h = [] := by
  simp [Slice.backing, List.getD_eq_getElem?_getD, List.getElem?_eq_none (Nat.le_of_not_lt hge)]

theorem elems_length (h : Heap) (s : Slice) (hwf : s.WF h) : (s.elems h).length = s.len := by
  simp only [Slice.elems, List.length_take]
  exact Nat.min_eq_left (Nat.le_trans hwf.1 hwf.2)

theorem take_append_exact {α : Type} (l1 l2 l3 : List α) (n : Nat) (hn : l1.length = n) :
    (l1 ++ l2 ++ l3).take (n + l2.length) = l1 ++ l2 := by
  subst hn
  rw [← List.length_append]
  exact List.take_left _ _

/-- After `append` the new slice holds the old elements followed by the
appended ones. -/
theorem goAppend_elems (grow : Nat → Nat → Nat) (h : Heap) (s : Slice) (ks : List GoString)
    (hwf : s.WF h) :
    (goAppend grow h s ks).2.elems (goAppend grow h s ks).1 = s.elems h ++ ks := by
  have hlen : s.len ≤ (s.backing h).length := Nat.le_trans hwf.1 hwf.2
  unfold goAppend
  by_cases hc : s.len + ks.length ≤ s.cap
  · simp only [hc, if_true]
    by_cases hlt : s.arr < h.length
    · have hb : Slice.backing (h.set s.arr (writeAt (s.backing h) s.len ks))
          { s with len := s.len + ks.length } = writeAt (s.backing h) s.len ks :=
        backing_set_self h { s with len := s.len + ks.length } _ hlt
      simp only [Slice.elems]
      rw [hb]
      simp only [writeAt]
      apply take_append_exact
      simp [List.length_take, Nat.min_eq_left hlen]
    · have hb := backing_of_not_lt h s hlt
      have h0 : s.cap = 0 := by
        have := hwf.2; rw [hb] at this; simpa using this
      have hl0 : s.len = 0 := by have := hwf.1; omega
      have hk0 : ks = [] := by
        have : ks.length = 0 := by omega
        exact List.length_eq_zero.mp this
      subst hk0
      simp [Slice.elems, hl0]
  · simp only [hc, if_false]
    have hel := elems_length h s hwf
    have hb : Slice.backing (h ++ [s.elems h ++ ks ++
          List.replicate (max (grow s.cap (s.len + ks.length)) (s.len + ks.length) -
            (s.len + ks.length)) ""])
        { arr := h.length, len := s.len + ks.length,
          cap := max (grow s.cap (s.len + ks.length)) (s.len + ks.length) } =
        s.elems h ++ ks ++ List.replicate (max (grow s.cap (s.len + ks.length))
          (s.len + ks.length) - (s.len + ks.length)) "" := by
      simp [Slice.backing, List.getD_eq_getElem?_getD]
    simp only [Slice.elems] at hb ⊢
    rw [hb]
    exact take_append_exact _ _ _ _ hel

/-- After `append` the new slice is consistent with the new heap. -/
theorem goAppend_WF (grow : Nat → Nat → Nat) (h : Heap) (s : Slice) (ks : List GoString)
    (hwf : s.WF h) : (goAppend grow h s ks).2.WF (goAppend grow h s ks).1 := by
  have hlen : s.len ≤ (s.backing h).length := Nat.le_trans hwf.1 hwf.2
  unfold goAppend
  by_cases hc : s.len + ks.length ≤ s.cap
  · simp only [hc, if_true]
    by_cases hlt : s.arr < h.length
    · have hb : Slice.backing (h.set s.arr (writeAt (s.backing h) s.len ks))
          { s with len := s.len + ks.length } = writeAt (s.backing h) s.len ks :=
        backing_set_self h { s with len := s.len + ks.length } _ hlt
      refine ⟨hc, ?_⟩
      rw [hb]
      have := hwf.2
      simp only [writeAt, List.length_append, List.length_take, List.length_drop]
      omega
    · have hb := backing_of_not_lt h s hlt
      have h0 : s.cap = 0 := by
        have := hwf.2; rw [hb] at this; simpa using this
      refine ⟨hc, ?_⟩
      simp [h0]
  · simp only [hc, if_false]
    have hel := elems_length h s hwf
    refine ⟨Nat.le_max_right _ _, ?_⟩
    simp only [Slice.backing]
    simp [List.getD_eq_getElem?_getD, hel]
    omega

/-! ## `AddPath` -/

theorem empty_append (s : GoString) : ("" : GoString) ++ s = s := by
  apply String.ext
  simp

/-- The method `AddPath` in terms of the token of the path: an error leaves heap and
cache alone, a token is appended to the keys. -/
theorem AddPath_eq (ext : Deps) (fs : FileTree) (h : Heap) (s : CompositeCache) (p : GoString) :
    s.AddPath ext fs h p =
      match pathToken ext fs p with
      | .error e => { heap := h, cache := s, err := some e }
      | .ok k => { heap := (goAppend ext.grow h s.keys [k]).1,
                   cache := { keys := (goAppend ext.grow h s.keys [k]).2 }, err := none } := by
  unfold CompositeCache.AddPath pathToken
  cases hl : osLstat fs p with
  | error e => simp
  | ok fi =>
    by_cases hd : fi.IsDir = true
    · simp only [hd, if_true]
      rcases hh : HashDir ext fs p with ⟨k, _ | e⟩ <;> simp
    · simp only [hd]
      cases hc : ext.CacheHasher p with
      | error e => simp
      | ok fh => simp [empty_append]

/-- C8. `AddPath(p)` either fails or appends exactly one token. When
`os.Lstat`, `HashDir` or the content hasher returns an error, `AddPath`
returns that error and heap and cache are as before, so tokens and `Key()`
are unchanged. Otherwise it returns nil and the tokens are the earlier tokens
followed by one token: `HashDir(p)` for a directory, the SHA-256 sum of the
content hasher's fingerprint for a non-directory. -/
theorem AddPath_fails_or_appends_one (ext : Deps) (fs : FileTree) (h : Heap)
    (s : CompositeCache) (p : GoString) (hwf : s.keys.WF h) :
    (∀ e, osLstat fs p = .error e →
      (s.AddPath ext fs h p).err = some e ∧ (s.AddPath ext fs h p).heap = h ∧
      (s.AddPath ext fs h p).cache = s ∧
      (s.AddPath ext fs h p).cache.Key (s.AddPath ext fs h p).heap = s.Key h) ∧
    (∀ fi e, osLstat fs p = .ok fi → fi.IsDir = true → (HashDir ext fs p).2 = some e →
      (s.AddPath ext fs h p).err = some e ∧ (s.AddPath ext fs h p).heap = h ∧
      (s.AddPath ext fs h p).cache = s ∧
      (s.AddPath ext fs h p).cache.Key (s.AddPath ext fs h p).heap = s.Key h) ∧
    (∀ fi e, osLstat fs p = .ok fi → fi.IsDir = false → ext.CacheHasher p = .error e →
      (s.AddPath ext fs h p).err = some e ∧ (s.AddPath ext fs h p).heap = h ∧
      (s.AddPath ext fs h p).cache = s ∧
      (s.AddPath ext fs h p).cache.Key (s.AddPath ext fs h p).heap = s.Key h) ∧
    (∀ fi, osLstat fs p = .ok fi → fi.IsDir = true → (HashDir ext fs p).2 = none →
      (s.AddPath ext fs h p).err = none ∧
      (s.AddPath ext fs h p).cache.tokens (s.AddPath ext fs h p).heap =
        s.tokens h ++ [(HashDir ext fs p).1]) ∧
    (∀ fi fh, osLstat fs p = .ok fi → fi.IsDir = false → ext.CacheHasher p = .ok fh →
      (s.AddPath ext fs h p).err = none ∧
      (s.AddPath ext fs h p).cache.tokens (s.AddPath ext fs h p).heap =
        s.tokens h ++ [ext.sha256Sum fh]) := by
  refine ⟨?_, ?_, ?_, ?_, ?_⟩
  · intro e hl
    have ht : pathToken ext fs p = .error e := by simp [pathToken, hl]
    rw [AddPath_eq, ht]
    exact ⟨rfl, rfl, rfl, rfl⟩
  · intro fi e hl hd hh
    have ht : pathToken ext fs p = .error e := by
      rcases hx : HashDir ext fs p with ⟨k, err⟩
      rw [hx] at hh
      simp only at hh
      subst hh
      simp [pathToken, hl, hd, hx]
    rw [AddPath_eq, ht]
    exact ⟨rfl, rfl, rfl, rfl⟩
  · intro fi e hl hd hc
    have ht : pathToken ext fs p = .error e := by simp [pathToken, hl, hd, hc]
    rw [AddPath_eq, ht]
    exact ⟨rfl, rfl, rfl, rfl⟩
  · intro fi hl hd hh
    have ht : pathToken ext fs p = .ok (HashDir ext fs p).1 := by
      rcases hx : HashDir ext fs p with ⟨k, err⟩
      rw [hx] at hh
      simp only at hh
      subst hh
      simp [pathToken, hl, hd, hx]
    rw [AddPath_eq, ht]
    exact ⟨rfl, goAppend_elems ext.grow h s.keys _ hwf⟩
  · intro fi fh hl hd hc
    have ht : pathToken ext fs p = .ok (ext.sha256Sum fh) := by simp [pathToken, hl, hd, hc]
    rw [AddPath_eq, ht]
    exact ⟨rfl, goAppend_elems ext.grow h s.keys _ hwf⟩

/-! ## `AddCommand` -/

theorem nilSlice_WF (h : Heap) : Slice.nilSlice.WF h := by
  simp [Slice.WF, Slice.nilSlice]

/-- The token `AddPath` appends to the empty cache is the token of the path. -/
theorem pathToken_of_AddPath (ext : Deps) (fs : FileTree) (p k : GoString)
    (hp : ((NewCompositeCache Slice.nilSlice).AddPath ext fs [] p).err = none ∧
      ((NewCompositeCache Slice.nilSlice).AddPath ext fs [] p).cache.tokens
        ((NewCompositeCache Slice.nilSlice).AddPath ext fs [] p).heap = [k]) :
    pathToken ext fs p = .ok k := by
  rw [AddPath_eq] at hp
  cases ht : pathToken ext fs p with
  | error e => rw [ht] at hp; simp at hp
  | ok k1 =>
    rw [ht] at hp
    have hel := goAppend_elems ext.grow [] (NewCompositeCache Slice.nilSlice).keys [k1]
      (nilSlice_WF [])
    have h2 := hp.2
    simp only [CompositeCache.tokens] at h2
    rw [hel] at h2
    simp [NewCompositeCache, Slice.elems, Slice.nilSlice] at h2
    rw [h2]

/-- The loop over the files: when every path has a token, the tokens are
appended in order and the loop returns nil. -/
theorem addPaths_tokens (ext : Deps) (fs : FileTree) (files : List GoString) :
    ∀ (fps : List GoString) (h : Heap) (s : CompositeCache), s.keys.WF h →
      List.Forall₂ (fun p k => pathToken ext fs p = .ok k) files fps →
      (addPaths ext fs h s files).err = none ∧
      (addPaths ext fs h s files).cache.keys.WF (addPaths ext fs h s files).heap ∧
      (addPaths ext fs h s files).cache.tokens (addPaths ext fs h s files).heap =
        s.tokens h ++ fps := by
  induction files with
  | nil =>
    intro fps h s hwf hall
    cases hall
    simp [addPaths, hwf]
  | cons f rest ih =>
    intro fps h s hwf hall
    cases hall with
    | cons hk hrest =>
      rename_i k ks
      have hstep : s.AddPath ext fs h f =
          { heap := (goAppend ext.grow h s.keys [k]).1,
            cache := { keys := (goAppend ext.grow h s.keys [k]).2 }, err := none } := by
        rw [AddPath_eq, hk]
      have hwf1 := goAppend_WF ext.grow h s.keys [k] hwf
      have hel1 := goAppend_elems ext.grow h s.keys [k] hwf
      have := ih ks (goAppend ext.grow h s.keys [k]).1
        { keys := (goAppend ext.grow h s.keys [k]).2 } hwf1 hrest
      simp only [addPaths, hstep]
      refine ⟨this.1, this.2.1, ?_⟩
      rw [this.2.2]
      simp only [CompositeCache.tokens]
      rw [hel1]
      simp

/-- C7. When the files-used-from-context query of the instruction returns
the paths `files` and `AddPath` succeeds on each of them, appending the token
`fps[i]` for `files[i]`, then `AddCommand` returns nil and leaves the tokens
`t ++ [instruction.String()] ++ fps`, where `t` are the tokens before: the
earlier tokens are kept, and the fingerprints follow in the order reported. -/
theorem AddCommand_appends_string_then_fingerprints (ext : Deps) (fs : FileTree) (h : Heap)
    (s : CompositeCache) (command : DockerCommand) (args : BuildArgs) (config : Config)
    (files fps : List GoString) (hwf : s.keys.WF h)
    (hfiles : command.FilesUsedFromContext config args = .ok files)
    (hfp : List.Forall₂ (fun p k =>
      ((NewCompositeCache Slice.nilSlice).AddPath ext fs [] p).err = none ∧
      ((NewCompositeCache Slice.nilSlice).AddPath ext fs [] p).cache.tokens
        ((NewCompositeCache Slice.nilSlice).AddPath ext fs [] p).heap = [k]) files fps) :
    (s.AddCommand ext fs h command args config).err = none ∧
    (s.AddCommand ext fs h command args config).cache.tokens
      (s.AddCommand ext fs h command args config).heap =
        s.tokens h ++ [command.String] ++ fps := by
  have hfp1 : List.Forall₂ (fun p k => pathToken ext fs p = .ok k) files fps :=
    hfp.imp (fun {p k} hp => pathToken_of_AddPath ext fs p k hp)
  have hwf1 := goAppend_WF ext.grow h s.keys [command.String] hwf
  have hel1 := goAppend_elems ext.grow h s.keys [command.String] hwf
  have := addPaths_tokens ext fs files fps (goAppend ext.grow h s.keys [command.String]).1
    { keys := (goAppend ext.grow h s.keys [command.String]).2 } hwf1 hfp1
  simp only [CompositeCache.AddCommand, CompositeCache.AddKey, hfiles]
  refine ⟨this.1, ?_⟩
  rw [this.2.2]
  simp only [CompositeCache.tokens]
  rw [hel1]

/-! ## `HashDir` -/

theorem hashEvents_append (ext : Deps) (l1 l2 : List (GoString × Option GoError)) :
    ∀ sha, hashEvents ext sha (l1 ++ l2) =
      match hashEvents ext sha l1 with
      | (sha1, none) => hashEvents ext sha1 l2
      | (sha1, some e) => (sha1, some e) := by
  induction l1 with
  | nil => intro sha; simp [hashEvents]
  | cons ev rest ih =>
    intro sha
    simp only [List.cons_append, hashEvents]
    rcases hr : hashDirFn ext sha ev.1 none ev.2 with ⟨sha1, _ | e⟩
    · exact ih sha1
    · simp

theorem hashDirFn_ne_skipDir (ext : Deps) (sha path : GoString) (fi : Option FileInfo)
    (err : Option GoError) : (hashDirFn ext sha path fi err).2 ≠ some WalkErr.skipDir := by
  unfold hashDirFn
  cases err with
  | some e => simp
  | none =>
    cases hc : ext.CacheHasher path with
    | error e => simp
    | ok f => simp

theorem hashEvents_ne_skipDir (ext : Deps) (l : List (GoString × Option GoError)) :
    ∀ sha, (hashEvents ext sha l).2 ≠ some WalkErr.skipDir := by
  induction l with
  | nil => intro sha; simp [hashEvents]
  | cons ev rest ih =>
    intro sha
    simp only [hashEvents]
    rcases hr : hashDirFn ext sha ev.1 none ev.2 with ⟨sha1, _ | e⟩
    · exact ih sha1
    · have := hashDirFn_ne_skipDir ext sha ev.1 none ev.2
      rw [hr] at this
      simpa using this

mutual
/-- The walk with the callback of `HashDir` is the callback run over the
calls of the walk. -/
theorem walk_hashDirFn (ext : Deps) (path : GoString) :
    ∀ (n : Node) (sha : GoString),
      walk (hashDirFn ext) path n sha = hashEvents ext sha (walkEvents path n)
  | .lstatErr e, sha => by
    simp [walk, walkEvents, hashEvents, hashDirFn]
  | .file, sha => by
    simp only [walk, walkEvents, hashEvents]
    rcases hr : hashDirFn ext sha path none none with ⟨sha1, _ | e⟩ <;>
      simp [hashDirFn] at hr ⊢ <;> simp [hashDirFn, hr]
  | .dir (some e) ents, sha => by
    simp [walk, walkEvents, hashEvents, hashDirFn]
  | .dir none ents, sha => by
    have ih := walkNames_hashDirFn ext path ents
    simp only [walk, walkEvents, hashEvents]
    have hfi : hashDirFn ext sha path (some { IsDir := true }) none =
        hashDirFn ext sha path none none := rfl
    rw [hfi]
    rcases hr : hashDirFn ext sha path none none with ⟨sha1, _ | e⟩
    · simp [ih]
    · simp
/-- The same for the entries of a directory. -/
theorem walkNames_hashDirFn (ext : Deps) (path : GoString) :
    ∀ (ents : Entries) (sha : GoString),
      walkNames (hashDirFn ext) path ents sha = hashEvents ext sha (walkEventsNames path ents)
  | .nil, sha => by simp [walkNames, walkEventsNames, hashEvents]
  | .cons name n rest, sha => by
    have ih1 := walk_hashDirFn ext (filepathJoin [path, name]) n sha
    have ih2 := walkNames_hashDirFn ext path rest
    have hns := hashEvents_ne_skipDir ext (walkEvents (filepathJoin [path, name]) n) sha
    simp only [walkNames, walkEventsNames, hashEvents_append, ih1]
    rcases hr : hashEvents ext sha (walkEvents (filepathJoin [path, name]) n) with ⟨sha1, _ | e⟩
    · simp [ih2]
    · rw [hr] at hns
      have hne : e ≠ WalkErr.skipDir := fun hh => hns (by rw [hh])
      cases n <;> simp [hne]
end

theorem hashEvents_ok (ext : Deps) (events : List (GoString × Option GoError)) :
    ∀ (fps : List GoString) (sha : GoString), (∀ ev ∈ events, ev.2 = none) →
      List.Forall₂ (fun ev f => ext.CacheHasher ev.1 = .ok f) events fps →
      hashEvents ext sha events = (fps.foldl (fun r s => r ++ s) sha, none) := by
  induction events with
  | nil =>
    intro fps sha _ hall
    cases hall
    simp [hashEvents]
  | cons ev rest ih =>
    intro fps sha hnone hall
    cases hall with
    | cons hf hrest =>
      rename_i f fs1
      have h2 : ev.2 = none := hnone ev (List.mem_cons_self _ _)
      have hstep : hashDirFn ext sha ev.1 none ev.2 = (sha ++ f, none) := by
        simp [hashDirFn, h2, hf]
      simp only [hashEvents, hstep, List.foldl_cons]
      exact ih fs1 (sha ++ f) (fun ev1 hm => hnone ev1 (List.mem_cons_of_mem _ hm)) hrest

theorem hashEvents_fail (ext : Deps) (events : List (GoString × Option GoError)) :
    ∀ (sha : GoString), (∃ ev ∈ events, ∃ e, failsWith ext ev e) →
      ∃ e, (hashEvents ext sha events).2 = some (WalkErr.fail e) ∧
        ∃ ev ∈ events, failsWith ext ev e := by
  induction events with
  | nil =>
    intro sha hex
    obtain ⟨ev, hm, _⟩ := hex
    cases hm
  | cons ev rest ih =>
    intro sha hex
    cases h2 : ev.2 with
    | some e =>
      refine ⟨e, ?_, ev, List.mem_cons_self _ _, Or.inl h2⟩
      simp [hashEvents, hashDirFn, h2]
    | none =>
      cases hc : ext.CacheHasher ev.1 with
      | error e =>
        refine ⟨e, ?_, ev, List.mem_cons_self _ _, Or.inr ⟨h2, hc⟩⟩
        simp [hashEvents, hashDirFn, h2, hc]
      | ok f =>
        have hrest : ∃ ev1 ∈ rest, ∃ e, failsWith ext ev1 e := by
          obtain ⟨ev1, hm, e, hf⟩ := hex
          rcases List.mem_cons.mp hm with heq | hin
          · subst heq
            rcases hf with hf | ⟨_, hf⟩
            · rw [h2] at hf; cases hf
            · rw [hc] at hf; cases hf
          · exact ⟨ev1, hin, e, hf⟩
        obtain ⟨e, he, ev1, hin, hf⟩ := ih (sha ++ f) hrest
        refine ⟨e, ?_, ev1, List.mem_cons_of_mem _ hin, hf⟩
        simpa [hashEvents, hashDirFn, h2, hc] using he

theorem HashDir_ok (ext : Deps) (fs : FileTree) (p : GoString) (fps : List GoString)
    (hwalk : ∀ ev ∈ walkEvents p (fs p), ev.2 = none)
    (hfp : List.Forall₂ (fun ev f => ext.CacheHasher ev.1 = .ok f) (walkEvents p (fs p)) fps) :
    HashDir ext fs p = (ext.sha256Sum (String.join fps), none) := by
  have := hashEvents_ok ext (walkEvents p (fs p)) fps "" hwalk hfp
  simp only [HashDir, filepathWalk, walk_hashDirFn, this]
  rfl

/-- C10. On a tree on which the walk reports no error and the content hasher
succeeds for every visited entry, `HashDir(p)` is the SHA-256 sum of the
concatenation of the fingerprints of the visited entries (the root,
directories and files alike) in walk order, with a nil error; hence two
directory hashes with the same ordered fingerprint list are equal. When the
walk or the hasher fails on an entry, `HashDir` returns the empty digest and
the error of a failing entry. -/
theorem HashDir_digest (ext : Deps) (fs : FileTree) (p : GoString) :
    (∀ fps : List GoString, (∀ ev ∈ walkEvents p (fs p), ev.2 = none) →
      List.Forall₂ (fun ev f => ext.CacheHasher ev.1 = .ok f) (walkEvents p (fs p)) fps →
      HashDir ext fs p = (ext.sha256Sum (String.join fps), none)) ∧
    (∀ (ext1 : Deps) (fs1 : FileTree) (p1 : GoString) (fps : List GoString),
      ext1.sha256Sum = ext.sha256Sum →
      (∀ ev ∈ walkEvents p (fs p), ev.2 = none) →
      List.Forall₂ (fun ev f => ext.CacheHasher ev.1 = .ok f) (walkEvents p (fs p)) fps →
      (∀ ev ∈ walkEvents p1 (fs1 p1), ev.2 = none) →
      List.Forall₂ (fun ev f => ext1.CacheHasher ev.1 = .ok f) (walkEvents p1 (fs1 p1)) fps →
      HashDir ext1 fs1 p1 = HashDir ext fs p) ∧
    ((∃ ev ∈ walkEvents p (fs p), ∃ e, failsWith ext ev e) →
      ∃ e, HashDir ext fs p = ("", some e) ∧ ∃ ev ∈ walkEvents p (fs p), failsWith ext ev e) := by
  refine ⟨fun fps hwalk hfp => HashDir_ok ext fs p fps hwalk hfp, ?_, ?_⟩
  · intro ext1 fs1 p1 fps hsha hwalk hfp hwalk1 hfp1
    rw [HashDir_ok ext fs p fps hwalk hfp, HashDir_ok ext1 fs1 p1 fps hwalk1 hfp1, hsha]
  · intro hex
    obtain ⟨e, he, hev⟩ := hashEvents_fail ext (walkEvents p (fs p)) "" hex
    refine ⟨e, ?_, hev⟩
    simp only [HashDir, filepathWalk, walk_hashDirFn, he]

/-! ## The WORKDIR command -/

theorem updateWorkdir_ok (ext : Subst) (path : GoString) (config : Config)
    (buildArgs : BuildArgs) (r : GoString)
    (hr : ext.ResolveEnvironmentReplacement path (ext.ReplacementEnvs buildArgs config.Env) true
      = .ok r) :
    updateWorkdir ext path config buildArgs =
      ({ config with WorkingDir :=
          if filepathIsAbs r then r else filepathJoin [config.WorkingDir, r] }, none) := by
  unfold updateWorkdir
  simp only [hr]
  by_cases ha : filepathIsAbs r = true <;> simp [ha]

theorem updateWorkdir_error (ext : Subst) (path : GoString) (config : Config)
    (buildArgs : BuildArgs) (e : GoError)
    (hr : ext.ResolveEnvironmentReplacement path (ext.ReplacementEnvs buildArgs config.Env) true
      = .error e) :
    updateWorkdir ext path config buildArgs = (config, some e) := by
  unfold updateWorkdir
  simp only [hr]

/-- The function `updateWorkdir` writes no field but `WorkingDir`. -/
theorem updateWorkdir_frame (ext : Subst) (path : GoString) (config : Config)
    (buildArgs : BuildArgs) :
    (updateWorkdir ext path config buildArgs).1 =
      { config with WorkingDir := (updateWorkdir ext path config buildArgs).1.WorkingDir } := by
  cases hr : ext.ResolveEnvironmentReplacement path
      (ext.ReplacementEnvs buildArgs config.Env) true with
  | error e => rw [updateWorkdir_error ext path config buildArgs e hr]
  | ok r => rw [updateWorkdir_ok ext path config buildArgs r hr]

/-- The full command when `updateWorkdir` fails. -/
theorem ExecuteCommand_of_update_error {σ : Type} (ext : Subst) (ops : FileOps σ)
    (w : WorkdirCommand) (config : Config) (buildArgs : BuildArgs) (world : World σ)
    (c1 : Config) (e : GoError)
    (hu : updateWorkdir ext w.cmd.Path config buildArgs = (c1, some e)) :
    w.ExecuteCommand ext ops config buildArgs world =
      { recv := w, config := c1, world := world, err := some e } := by
  simp only [WorkdirCommand.ExecuteCommand, hu]

/-- The full command when the directory is reported as not existing. -/
theorem ExecuteCommand_of_absent {σ : Type} (ext : Subst) (ops : FileOps σ)
    (w : WorkdirCommand) (config : Config) (buildArgs : BuildArgs) (world : World σ)
    (c1 : Config) (hu : updateWorkdir ext w.cmd.Path config buildArgs = (c1, none))
    (hs : osIsNotExist (ops.Stat world.fs c1.WorkingDir) = true) :
    w.ExecuteCommand ext ops config buildArgs world =
      { recv := { w with snapshotFiles := [c1.WorkingDir] }, config := c1,
        world := { fs := (ops.mkdir world.fs c1.WorkingDir 0o755).1,
                   calls := world.calls ++ [FsCall.stat c1.WorkingDir] ++
                     [FsCall.mkdirAll c1.WorkingDir 0o755] },
        err := (ops.mkdir world.fs c1.WorkingDir 0o755).2 } := by
  simp only [WorkdirCommand.ExecuteCommand, hu, World.stat, hs, if_true, World.mkdir,
    List.nil_append]

/-- The full command when the directory is not reported as not existing. -/
theorem ExecuteCommand_of_present {σ : Type} (ext : Subst) (ops : FileOps σ)
    (w : WorkdirCommand) (config : Config) (buildArgs : BuildArgs) (world : World σ)
    (c1 : Config) (hu : updateWorkdir ext w.cmd.Path config buildArgs = (c1, none))
    (hs : osIsNotExist (ops.Stat world.fs c1.WorkingDir) = false) :
    w.ExecuteCommand ext ops config buildArgs world =
      { recv := { w with snapshotFiles := [] }, config := c1,
        world := { fs := world.fs, calls := world.calls ++ [FsCall.stat c1.WorkingDir] },
        err := none } := by
  simp [WorkdirCommand.ExecuteCommand, hu, World.stat, hs]

/-- The configuration after the full command is the one `updateWorkdir` leaves. -/
theorem ExecuteCommand_config {σ : Type} (ext : Subst) (ops : FileOps σ) (w : WorkdirCommand)
    (config : Config) (buildArgs : BuildArgs) (world : World σ) :
    (w.ExecuteCommand ext ops config buildArgs world).config =
      (updateWorkdir ext w.cmd.Path config buildArgs).1 := by
  rcases hu : updateWorkdir ext w.cmd.Path config buildArgs with ⟨c1, _ | e⟩
  · cases hs : osIsNotExist (ops.Stat world.fs c1.WorkingDir) with
    | true => rw [ExecuteCommand_of_absent ext ops w config buildArgs world c1 hu hs]
    | false => rw [ExecuteCommand_of_present ext ops w config buildArgs world c1 hu hs]
  · rw [ExecuteCommand_of_update_error ext ops w config buildArgs world c1 e hu]

/-- C3. For the same path, configuration, build arguments and file system,
the full and the cached command leave the same configuration, which differs
from the initial one in `WorkingDir` at most; the cached command leaves the
file system and the log of file-system calls as they were. -/
theorem cached_ExecuteCommand_matches_full {σ : Type} (ext : Subst) (ops : FileOps σ)
    (w : WorkdirCommand) (cw : CachedWorkdirCommand) (config : Config) (buildArgs : BuildArgs)
    (world : World σ) (hpath : cw.cmd.Path = w.cmd.Path) :
    (cw.ExecuteCommand ext config buildArgs world).config =
      (w.ExecuteCommand ext ops config buildArgs world).config ∧
    (cw.ExecuteCommand ext config buildArgs world).config =
      { config with
        WorkingDir := (cw.ExecuteCommand ext config buildArgs world).config.WorkingDir } ∧
    (cw.ExecuteCommand ext config buildArgs world).world.calls = world.calls ∧
    (cw.ExecuteCommand ext config buildArgs world).world.fs = world.fs := by
  refine ⟨?_, ?_, rfl, rfl⟩
  · rw [ExecuteCommand_config]
    simp only [CachedWorkdirCommand.ExecuteCommand, hpath]
  · simp only [CachedWorkdirCommand.ExecuteCommand]
    exact updateWorkdir_frame ext cw.cmd.Path config buildArgs

/-- C4. When the environment substitution of the raw path succeeds with
result `r`, `updateWorkdir` returns nil and sets `WorkingDir` to `r` if `r`
is absolute and to `filepath.Join(previous WorkingDir, r)` otherwise, leaving
the other fields alone; the result `/foo` gives `/foo`, and the result
`relative` with previous working directory `/base` gives `/base/relative`. -/
theorem updateWorkdir_resolves (ext : Subst) (path : GoString) (config : Config)
    (buildArgs : BuildArgs) (r : GoString)
    (hr : ext.ResolveEnvironmentReplacement path (ext.ReplacementEnvs buildArgs config.Env) true
      = .ok r) :
    (updateWorkdir ext path config buildArgs).2 = none ∧
    (filepathIsAbs r = true → (updateWorkdir ext path config buildArgs).1.WorkingDir = r) ∧
    (filepathIsAbs r = false → (updateWorkdir ext path config buildArgs).1.WorkingDir =
      filepathJoin [config.WorkingDir, r]) ∧
    (updateWorkdir ext path config buildArgs).1 =
      { config with WorkingDir := (updateWorkdir ext path config buildArgs).1.WorkingDir } ∧
    (r = "/foo" → (updateWorkdir ext path config buildArgs).1.WorkingDir = "/foo") ∧
    (r = "relative" → config.WorkingDir = "/base" →
      (updateWorkdir ext path config buildArgs).1.WorkingDir = "/base/relative") := by
  rw [updateWorkdir_ok ext path config buildArgs r hr]
  refine ⟨rfl, ?_, ?_, rfl, ?_, ?_⟩
  · intro ha; simp [ha]
  · intro ha; simp [ha]
  · intro h1
    subst h1
    show (if filepathIsAbs "/foo" = true then "/foo"
      else filepathJoin [config.WorkingDir, "/foo"]) = "/foo"
    have ha : filepathIsAbs "/foo" = true := by decide
    rw [if_pos ha]
  · intro h1 h2
    subst h1
    show (if filepathIsAbs "relative" = true then "relative"
      else filepathJoin [config.WorkingDir, "relative"]) = "/base/relative"
    have ha : ¬ filepathIsAbs "relative" = true := by decide
    rw [if_neg ha, h2]
    decide

/-- The full command by the outcome of `os.Stat`, when it returns nil: if
`os.Stat` reported the resolved working directory as not existing,
`FilesToSnapshot()` is exactly `[config.WorkingDir]` and the file-system
calls were one `Stat` and one `mkdir` of that directory with mode 0755, which
succeeded; for every other outcome of `Stat` `FilesToSnapshot()` is empty and
the only call was the `Stat`. The snapshot list the command held before plays
no role. -/
theorem ExecuteCommand_snapshot {σ : Type} (ext : Subst) (ops : FileOps σ) (w : WorkdirCommand)
    (config : Config) (buildArgs : BuildArgs) (world : World σ)
    (hok : (w.ExecuteCommand ext ops config buildArgs world).err = none) :
    (osIsNotExist (ops.Stat world.fs
        (w.ExecuteCommand ext ops config buildArgs world).config.WorkingDir) = true →
      (w.ExecuteCommand ext ops config buildArgs world).recv.FilesToSnapshot =
        [(w.ExecuteCommand ext ops config buildArgs world).config.WorkingDir] ∧
      (w.ExecuteCommand ext ops config buildArgs world).world.calls = world.calls ++
        [FsCall.stat (w.ExecuteCommand ext ops config buildArgs world).config.WorkingDir,
         FsCall.mkdirAll (w.ExecuteCommand ext ops config buildArgs world).config.WorkingDir
           0o755] ∧
      ops.mkdir world.fs (w.ExecuteCommand ext ops config buildArgs world).config.WorkingDir 0o755 =
        ((w.ExecuteCommand ext ops config buildArgs world).world.fs, none)) ∧
    (osIsNotExist (ops.Stat world.fs
        (w.ExecuteCommand ext ops config buildArgs world).config.WorkingDir) = false →
      (w.ExecuteCommand ext ops config buildArgs world).recv.FilesToSnapshot = [] ∧
      (w.ExecuteCommand ext ops config buildArgs world).world.calls = world.calls ++
        [FsCall.stat (w.ExecuteCommand ext ops config buildArgs world).config.WorkingDir] ∧
      (w.ExecuteCommand ext ops config buildArgs world).world.fs = world.fs) := by
  rcases hu : updateWorkdir ext w.cmd.Path config buildArgs with ⟨c1, _ | e⟩
  · cases hs : osIsNotExist (ops.Stat world.fs c1.WorkingDir) with
    | true =>
      rw [ExecuteCommand_of_absent ext ops w config buildArgs world c1 hu hs] at hok ⊢
      simp only at hok
      exact ⟨fun _ => ⟨rfl, by simp, Prod.ext rfl hok⟩, fun hc => absurd hc (by simp [hs])⟩
    | false =>
      rw [ExecuteCommand_of_present ext ops w config buildArgs world c1 hu hs]
      exact ⟨fun hc => absurd hc (by simp [hs]), fun _ => ⟨rfl, rfl, rfl⟩⟩
  · rw [ExecuteCommand_of_update_error ext ops w config buildArgs world c1 e hu] at hok
    simp at hok

/-- C9. When the substitution succeeds, `os.Stat` reports the resolved
directory as not existing and `mkdir` fails with `e`: `ExecuteCommand`
returns exactly `e`, `FilesToSnapshot()` is `[config.WorkingDir]`, and the
configuration keeps the newly resolved working directory with every other
field as before. -/
theorem ExecuteCommand_mkdir_failure {σ : Type} (ext : Subst) (ops : FileOps σ)
    (w : WorkdirCommand) (config : Config) (buildArgs : BuildArgs) (world : World σ)
    (r : GoString) (e : GoError)
    (hr : ext.ResolveEnvironmentReplacement w.cmd.Path
      (ext.ReplacementEnvs buildArgs config.Env) true = .ok r)
    (habsent : osIsNotExist (ops.Stat world.fs
      (if filepathIsAbs r then r else filepathJoin [config.WorkingDir, r])) = true)
    (hmk : (ops.mkdir world.fs
      (if filepathIsAbs r then r else filepathJoin [config.WorkingDir, r]) 0o755).2 = some e) :
    (w.ExecuteCommand ext ops config buildArgs world).err = some e ∧
    (w.ExecuteCommand ext ops config buildArgs world).recv.FilesToSnapshot =
      [(w.ExecuteCommand ext ops config buildArgs world).config.WorkingDir] ∧
    (w.ExecuteCommand ext ops config buildArgs world).config =
      { config with WorkingDir :=
          if filepathIsAbs r then r else filepathJoin [config.WorkingDir, r] } := by
  have hu := updateWorkdir_ok ext w.cmd.Path config buildArgs r hr
  rw [ExecuteCommand_of_absent ext ops w config buildArgs world _ hu habsent]
  exact ⟨hmk, rfl, rfl⟩

/-! ## `Key()` and the order of the tokens -/

theorem foldl_join_data (sep : GoString) (rest : List GoString) :
    ∀ e : GoString, (rest.foldl (fun b s => b ++ sep ++ s) e).data =
      e.data ++ (rest.map (fun s => sep.data ++ s.data)).flatten := by
  induction rest with
  | nil => intro e; simp
  | cons x xs ih =>
    intro e
    simp only [List.foldl_cons, ih, String.data_append, List.map_cons, List.flatten_cons,
      List.append_assoc]

theorem joinTail_eq (rest : List GoString) :
    (rest.map (fun s => ("-" : GoString).data ++ s.data)).flatten = joinTail rest := by
  induction rest with
  | nil => rfl
  | cons x xs ih =>
    simp only [List.map_cons, List.flatten_cons, ih, joinTail]
    rfl

theorem stringsJoin_cons_data (e : GoString) (rest : List GoString) :
    (stringsJoin (e :: rest) "-").data = e.data ++ joinTail rest := by
  simp only [stringsJoin, foldl_join_data, joinTail_eq]

theorem joinTail_shape (l : List GoString) :
    joinTail l = [] ∨ ∃ t, joinTail l = '-' :: t := by
  cases l with
  | nil => exact Or.inl rfl
  | cons x xs => exact Or.inr ⟨_, rfl⟩

/-- Two separator-free words, each followed by nothing or by a separator,
that give the same text are the same word with the same continuation. -/
theorem word_unique : ∀ (a b X Y : List Char), '-' ∉ a → '-' ∉ b →
    (X = [] ∨ ∃ t, X = '-' :: t) → (Y = [] ∨ ∃ t, Y = '-' :: t) →
    a ++ X = b ++ Y → a = b ∧ X = Y := by
  intro a
  induction a with
  | nil =>
    intro b X Y _ hb hX _ heq
    cases b with
    | nil => exact ⟨rfl, by simpa using heq⟩
    | cons d b1 =>
      exfalso
      rcases hX with hX | ⟨t, hX⟩
      · subst hX; simp at heq
      · subst hX
        simp only [List.nil_append, List.cons_append, List.cons.injEq] at heq
        exact hb (by rw [← heq.1]; exact List.mem_cons_self _ _)
  | cons c a1 ih =>
    intro b X Y ha hb hX hY heq
    cases b with
    | nil =>
      exfalso
      rcases hY with hY | ⟨t, hY⟩
      · subst hY; simp at heq
      · subst hY
        simp only [List.nil_append, List.cons_append, List.cons.injEq] at heq
        exact ha (by rw [heq.1]; exact List.mem_cons_self _ _)
    | cons d b1 =>
      simp only [List.cons_append, List.cons.injEq] at heq
      have ha1 : '-' ∉ a1 := fun hm => ha (List.mem_cons_of_mem _ hm)
      have hb1 : '-' ∉ b1 := fun hm => hb (List.mem_cons_of_mem _ hm)
      obtain ⟨h1, h2⟩ := ih b1 X Y ha1 hb1 hX hY heq.2
      exact ⟨by rw [heq.1, h1], h2⟩

theorem joinTail_injective : ∀ (l l1 : List GoString), (∀ k ∈ l, dashFree k) →
    (∀ k ∈ l1, dashFree k) → l.length = l1.length → joinTail l = joinTail l1 → l = l1 := by
  intro l
  induction l with
  | nil =>
    intro l1 _ _ hlen _
    cases l1 with
    | nil => rfl
    | cons y ys => simp at hlen
  | cons x xs ih =>
    intro l1 hl hl1 hlen heq
    cases l1 with
    | nil => simp at hlen
    | cons y ys =>
      simp only [joinTail, List.cons.injEq, true_and] at heq
      obtain ⟨h1, h2⟩ := word_unique x.data y.data (joinTail xs) (joinTail ys)
        (hl x (List.mem_cons_self _ _)) (hl1 y (List.mem_cons_self _ _))
        (joinTail_shape xs) (joinTail_shape ys) heq
      have hx : x = y := String.ext h1
      have hrest := ih ys (fun k hk => hl k (List.mem_cons_of_mem _ hk))
        (fun k hk => hl1 k (List.mem_cons_of_mem _ hk)) (by simpa using hlen) h2
      rw [hx, hrest]

/-- The function `strings.Join(_, "-")` is injective on separator-free token lists of
the same length. -/
theorem stringsJoin_injective (l l1 : List GoString) (hl : ∀ k ∈ l, dashFree k)
    (hl1 : ∀ k ∈ l1, dashFree k) (hlen : l.length = l1.length)
    (heq : stringsJoin l "-" = stringsJoin l1 "-") : l = l1 := by
  cases l with
  | nil =>
    cases l1 with
    | nil => rfl
    | cons y ys => simp at hlen
  | cons x xs =>
    cases l1 with
    | nil => simp at hlen
    | cons y ys =>
      have hd := congrArg String.data heq
      rw [stringsJoin_cons_data, stringsJoin_cons_data] at hd
      obtain ⟨h1, h2⟩ := word_unique x.data y.data (joinTail xs) (joinTail ys)
        (hl x (List.mem_cons_self _ _)) (hl1 y (List.mem_cons_self _ _))
        (joinTail_shape xs) (joinTail_shape ys) hd
      have hx : x = y := String.ext h1
      have hrest := joinTail_injective xs ys (fun k hk => hl k (List.mem_cons_of_mem _ hk))
        (fun k hk => hl1 k (List.mem_cons_of_mem _ hk)) (by simpa using hlen) h2
      rw [hx, hrest]

/-- The method `AddKey` appends its arguments to the tokens and keeps the key slice
consistent with the heap. -/
theorem AddKey_tokens (grow : Nat → Nat → Nat) (h : Heap) (s : CompositeCache)
    (k : List GoString) (hwf : s.keys.WF h) :
    (s.AddKey grow h k).2.tokens (s.AddKey grow h k).1 = s.tokens h ++ k ∧
    (s.AddKey grow h k).2.keys.WF (s.AddKey grow h k).1 :=
  ⟨goAppend_elems grow h s.keys k hwf, goAppend_WF grow h s.keys k hwf⟩

/-- The claim C2 as stated fails: the token sequences `["a", "a-a"]` and
`["a-a", "a"]` are reorderings of each other and differ, yet the caches
`NewCompositeCache("a", "a-a")` and `NewCompositeCache("a-a", "a")` both
have the key `a-a-a`. -/
theorem Key_reordering_collision :
    ((buildCache goGrowCap ["a-a", "a"] []).2.tokens (buildCache goGrowCap ["a-a", "a"] []).1).Perm
      ((buildCache goGrowCap ["a", "a-a"] []).2.tokens (buildCache goGrowCap ["a", "a-a"] []).1) ∧
    (buildCache goGrowCap ["a-a", "a"] []).2.tokens (buildCache goGrowCap ["a-a", "a"] []).1 ≠
      (buildCache goGrowCap ["a", "a-a"] []).2.tokens (buildCache goGrowCap ["a", "a-a"] []).1 ∧
    (buildCache goGrowCap ["a-a", "a"] []).2.Key (buildCache goGrowCap ["a-a", "a"] []).1 =
      (buildCache goGrowCap ["a", "a-a"] []).2.Key (buildCache goGrowCap ["a", "a-a"] []).1 := by
  refine ⟨?_, by decide, by decide⟩
  exact List.Perm.swap "a" "a-a" []

/-- C2, amended. When no token contains the separator `-`, a cache whose
tokens are a reordering of the tokens of another cache and differ from them
has a different `Key()`; and on a new cache `AddKey("a"); AddKey("b")` gives
a different `Key()` than `AddKey("b"); AddKey("a")`, whatever the growth
policy of `append`. -/
theorem Key_order_sensitive (h h1 : Heap) (s s1 : CompositeCache)
    (hfree : ∀ k ∈ s.tokens h, dashFree k) (hperm : (s1.tokens h1).Perm (s.tokens h))
    (hne : s1.tokens h1 ≠ s.tokens h) :
    s1.Key h1 ≠ s.Key h ∧
    ∀ grow : Nat → Nat → Nat,
      ((buildCache grow [] [["a"], ["b"]]).2.Key (buildCache grow [] [["a"], ["b"]]).1) ≠
      ((buildCache grow [] [["b"], ["a"]]).2.Key (buildCache grow [] [["b"], ["a"]]).1) := by
  constructor
  · intro heq
    apply hne
    have hfree1 : ∀ k ∈ s1.tokens h1, dashFree k := fun k hk => hfree k (hperm.subset hk)
    exact stringsJoin_injective (s1.tokens h1) (s.tokens h) hfree1 hfree hperm.length_eq heq
  · intro grow
    have key : ∀ x y : GoString,
        (buildCache grow [] [[x], [y]]).2.tokens (buildCache grow [] [[x], [y]]).1 = [x, y] := by
      intro x y
      have h0 : (NewCompositeCache (mkSlice [] []).2).keys.WF (mkSlice [] []).1 :=
        nilSlice_WF []
      have s1 := AddKey_tokens grow (mkSlice [] []).1 (NewCompositeCache (mkSlice [] []).2) [x] h0
      have s2 := AddKey_tokens grow _ _ [y] s1.2
      simp only [buildCache, List.foldl_cons, List.foldl_nil]
      rw [s2.1, s1.1]
      rfl
    have ha := key "a" "b"
    have hb := key "b" "a"
    simp only [CompositeCache.tokens] at ha hb
    simp only [CompositeCache.Key, ha, hb]
    decide

/-! ## `Copy()` and `CacheCommand()` -/

/-- C1, at the failing input. The source is `NewCompositeCache("a")` after
`AddKey("b")` and `AddKey("c")`, which leaves three keys in an array of
capacity four, and `c` is its `Copy()`. The copy has the key slice of the
source, backing array included. After `s.AddKey("x")` and then
`c.AddKey("y")` the key of the source is `a-b-c-y`; without the call on the
copy it is `a-b-c-x`. -/
theorem Copy_shares_backing_array :
    (fork (buildCache goGrowCap ["a"] [["b"], ["c"]])).c.keys =
      (fork (buildCache goGrowCap ["a"] [["b"], ["c"]])).s.keys ∧
    (fork (buildCache goGrowCap ["a"] [["b"], ["c"]])).s.keys = { arr := 2, len := 3, cap := 4 } ∧
    sourceKeyAfter goGrowCap (fork (buildCache goGrowCap ["a"] [["b"], ["c"]]))
      [KeyOp.onSource ["x"], KeyOp.onCopy ["y"]] = "a-b-c-y" ∧
    sourceKeyAfter goGrowCap (fork (buildCache goGrowCap ["a"] [["b"], ["c"]]))
      [KeyOp.onSource ["x"]] = "a-b-c-x" := by
  decide

/-- C6, at the failing input. The `CacheCommand()` of a full command is the
method promoted from `BaseCommand`: the full commands of `WORKDIR /a` and of
`WORKDIR /b`, whose `String()` differ, get the same result from it. The
`CacheCommand()` that `workdir.go` declares has the cached command as its
receiver, and there it returns a cached command with the same instruction. -/
theorem CacheCommand_declared_on_cached {δ : Type} (baseCacheCommand : BaseCommand → δ) :
    WorkdirCommand.CacheCommand baseCacheCommand
        { BaseCommand := {}, cmd := { code := "WORKDIR /a", name := "workdir", Path := "/a" }, snapshotFiles := [] } =
      WorkdirCommand.CacheCommand baseCacheCommand
        { BaseCommand := {}, cmd := { code := "WORKDIR /b", name := "workdir", Path := "/b" }, snapshotFiles := [] } ∧
    WorkdirCommand.String
        { BaseCommand := {}, cmd := { code := "WORKDIR /a", name := "workdir", Path := "/a" }, snapshotFiles := [] } ≠
      WorkdirCommand.String
        { BaseCommand := {}, cmd := { code := "WORKDIR /b", name := "workdir", Path := "/b" }, snapshotFiles := [] } ∧
    (∀ r : CachedWorkdirCommand, r.CacheCommand.cmd = r.cmd ∧
      r.CacheCommand.String = r.String ∧ r.CacheCommand.MetadataOnly = true) ∧
    (∀ w : WorkdirCommand, w.MetadataOnly = false) :=
  ⟨rfl, by decide, fun _ => ⟨rfl, rfl, rfl⟩, fun _ => rfl⟩

/-! ## A working directory below a regular file -/

/-- C5, at the failing input. On a disk with the regular file `/file` the
directory `/file/sub` does not exist. The full command of `WORKDIR /file/sub`
returns nil and sets the working directory to `/file/sub`; `os.Stat` fails
with "not a directory", which `os.IsNotExist` does not accept, so
`FilesToSnapshot()` is empty, the only file-system call is the `Stat`, and
the directory still does not exist afterwards. On the same disk the absent
directory `/new/sub`, for which `Stat` fails with a not-exist error, is
recorded and created with mode 0755. -/
theorem ExecuteCommand_skips_directory_below_file :
    "/file/sub" ∉ fileWorld.fs.dirs ∧
    (fullFileSub.ExecuteCommand plainSubst diskOps baseConfig [] fileWorld).err = none ∧
    (fullFileSub.ExecuteCommand plainSubst diskOps baseConfig [] fileWorld).config.WorkingDir =
      "/file/sub" ∧
    (fullFileSub.ExecuteCommand plainSubst diskOps baseConfig [] fileWorld).recv.FilesToSnapshot =
      [] ∧
    (fullFileSub.ExecuteCommand plainSubst diskOps baseConfig [] fileWorld).world.calls =
      [FsCall.stat "/file/sub"] ∧
    "/file/sub" ∉
      (fullFileSub.ExecuteCommand plainSubst diskOps baseConfig [] fileWorld).world.fs.dirs ∧
    "/new/sub" ∉ fileWorld.fs.dirs ∧
    (fullNewSub.ExecuteCommand plainSubst diskOps baseConfig [] fileWorld).err = none ∧
    (fullNewSub.ExecuteCommand plainSubst diskOps baseConfig [] fileWorld).recv.FilesToSnapshot =
      ["/new/sub"] ∧
    (fullNewSub.ExecuteCommand plainSubst diskOps baseConfig [] fileWorld).world.calls =
      [FsCall.stat "/new/sub", FsCall.mkdirAll "/new/sub" 0o755] ∧
    (fullNewSub.ExecuteCommand plainSubst diskOps baseConfig [] fileWorld).world.fs.dirs =
      ["/new/sub", "/new", "/"] := by
  decide

/-! ## The theorems at concrete inputs -/

/-- C2 at the caches holding `["a", "b"]` and `["b", "a"]`. -/
theorem Key_order_sensitive_witness :
    (∀ k ∈ (buildCache goGrowCap ["a", "b"] []).2.tokens (buildCache goGrowCap ["a", "b"] []).1,
      dashFree k) ∧
    (buildCache goGrowCap ["b", "a"] []).2.Key (buildCache goGrowCap ["b", "a"] []).1 ≠
      (buildCache goGrowCap ["a", "b"] []).2.Key (buildCache goGrowCap ["a", "b"] []).1 :=
  ⟨by decide,
    (Key_order_sensitive (buildCache goGrowCap ["a", "b"] []).1
      (buildCache goGrowCap ["b", "a"] []).1 (buildCache goGrowCap ["a", "b"] []).2
      (buildCache goGrowCap ["b", "a"] []).2 (by decide)
      (by show List.Perm ["b", "a"] ["a", "b"]; exact List.Perm.swap "a" "b" [])
      (by decide)).1⟩

/-- C3 at `WORKDIR sub` from `/base`. -/
theorem cached_ExecuteCommand_matches_full_witness :
    cachedSub.cmd.Path = fullSub.cmd.Path ∧
    (cachedSub.ExecuteCommand plainSubst baseConfig [] freshWorld).config =
      (fullSub.ExecuteCommand plainSubst listOps baseConfig [] freshWorld).config ∧
    (cachedSub.ExecuteCommand plainSubst baseConfig [] freshWorld).world.calls = [] :=
  ⟨rfl,
    (cached_ExecuteCommand_matches_full plainSubst listOps fullSub cachedSub baseConfig []
      freshWorld rfl).1,
    (cached_ExecuteCommand_matches_full plainSubst listOps fullSub cachedSub baseConfig []
      freshWorld rfl).2.2.1⟩

/-- C4 at the path `relative` from `/base`. -/
theorem updateWorkdir_resolves_witness :
    plainSubst.ResolveEnvironmentReplacement "relative"
      (plainSubst.ReplacementEnvs [] baseConfig.Env) true = .ok "relative" ∧
    (updateWorkdir plainSubst "relative" baseConfig []).1.WorkingDir = "/base/relative" :=
  ⟨rfl, (updateWorkdir_resolves plainSubst "relative" baseConfig [] "relative" rfl).2.2.2.2.2
    rfl rfl⟩

/-- The full command of `WORKDIR sub` from `/base`, where `Stat` reports `/base/sub` as
not existing. -/
theorem ExecuteCommand_snapshot_witness :
    (fullSub.ExecuteCommand plainSubst listOps baseConfig [] freshWorld).err = none ∧
    (fullSub.ExecuteCommand plainSubst listOps baseConfig [] freshWorld).recv.FilesToSnapshot =
      ["/base/sub"] ∧
    (fullSub.ExecuteCommand plainSubst listOps baseConfig [] freshWorld).world.calls =
      [FsCall.stat "/base/sub", FsCall.mkdirAll "/base/sub" 0o755] :=
  ⟨by decide,
    ((ExecuteCommand_snapshot plainSubst listOps fullSub baseConfig [] freshWorld
      (by decide)).1 (by decide)).1,
    ((ExecuteCommand_snapshot plainSubst listOps fullSub baseConfig [] freshWorld
      (by decide)).1 (by decide)).2.1⟩

/-- C7 at a command that uses the directory `/ctx` and the file `/f`. -/
theorem AddCommand_appends_string_then_fingerprints_witness :
    Slice.nilSlice.WF [] ∧
    (CompositeCache.AddCommand showDeps ctxTree [] (NewCompositeCache Slice.nilSlice)
        copyCommand [] baseConfig).cache.tokens
      (CompositeCache.AddCommand showDeps ctxTree [] (NewCompositeCache Slice.nilSlice)
        copyCommand [] baseConfig).heap =
      ["COPY ctx f /app", "sha256(</ctx></ctx/a></ctx/d></ctx/d/x></ctx/z>)", "sha256(</f>)"] :=
  ⟨by decide,
    (AddCommand_appends_string_then_fingerprints showDeps ctxTree []
      (NewCompositeCache Slice.nilSlice) copyCommand [] baseConfig ["/ctx", "/f"]
      ["sha256(</ctx></ctx/a></ctx/d></ctx/d/x></ctx/z>)", "sha256(</f>)"] (by decide) rfl
      (List.Forall₂.cons ⟨by decide, by decide⟩
        (List.Forall₂.cons ⟨by decide, by decide⟩ List.Forall₂.nil))).2⟩

/-- C8 at the file `/f` and at a path that does not exist. -/
theorem AddPath_fails_or_appends_one_witness :
    Slice.nilSlice.WF [] ∧
    (CompositeCache.AddPath showDeps ctxTree [] (NewCompositeCache Slice.nilSlice) "/f").cache.tokens
      (CompositeCache.AddPath showDeps ctxTree [] (NewCompositeCache Slice.nilSlice) "/f").heap =
      ["sha256(</f>)"] ∧
    (CompositeCache.AddPath showDeps ctxTree [] (NewCompositeCache Slice.nilSlice) "/gone").err =
      some { msg := "no such file or directory", notExist := true } :=
  ⟨by decide,
    ((AddPath_fails_or_appends_one showDeps ctxTree [] (NewCompositeCache Slice.nilSlice) "/f"
      (by decide)).2.2.2.2 { IsDir := false } "</f>" rfl rfl rfl).2,
    ((AddPath_fails_or_appends_one showDeps ctxTree [] (NewCompositeCache Slice.nilSlice) "/gone"
      (by decide)).1 { msg := "no such file or directory", notExist := true } rfl).1⟩

/-- C9 at `WORKDIR sub` from `/base` on a read-only file system. -/
theorem ExecuteCommand_mkdir_failure_witness :
    plainSubst.ResolveEnvironmentReplacement fullSub.cmd.Path
      (plainSubst.ReplacementEnvs [] baseConfig.Env) true = .ok "sub" ∧
    (fullSub.ExecuteCommand plainSubst readOnlyOps baseConfig [] freshWorld).err =
      some { msg := "read-only file system", notExist := false } ∧
    (fullSub.ExecuteCommand plainSubst readOnlyOps baseConfig [] freshWorld).recv.FilesToSnapshot =
      ["/base/sub"] ∧
    (fullSub.ExecuteCommand plainSubst readOnlyOps baseConfig [] freshWorld).config.WorkingDir =
      "/base/sub" :=
  ⟨rfl,
    (ExecuteCommand_mkdir_failure plainSubst readOnlyOps fullSub baseConfig [] freshWorld "sub"
      { msg := "read-only file system", notExist := false } rfl (by decide) (by decide)).1,
    by decide, by decide⟩

/-- C10 at the directory `/ctx` and at the unreadable directory `/locked`. -/
theorem HashDir_digest_witness :
    HashDir showDeps ctxTree "/ctx" =
      ("sha256(</ctx></ctx/a></ctx/d></ctx/d/x></ctx/z>)", none) ∧
    ∃ e, HashDir showDeps ctxTree "/locked" = ("", some e) :=
  ⟨(HashDir_digest showDeps ctxTree "/ctx").1
      ["</ctx>", "</ctx/a>", "</ctx/d>", "</ctx/d/x>", "</ctx/z>"] (by decide)
      (List.Forall₂.cons rfl (List.Forall₂.cons rfl (List.Forall₂.cons rfl
        (List.Forall₂.cons rfl (List.Forall₂.cons rfl List.Forall₂.nil))))),
    ((HashDir_digest showDeps ctxTree "/locked").2.2
      ⟨("/locked", some { msg := "permission denied", notExist := false }), by decide,
        { msg := "permission denied", notExist := false }, Or.inl rfl⟩).imp
      (fun _ he => he.1)⟩

end Kaniko
